import Mathlib

/-!
Verification of the KenKen constraint compiler (src/kenken_csp.py) and the
search-ordering heuristics (src/heuristics.py) against their specification.
The CSP, Variable and Constraint primitives live in the external cspbase
collaborator, which is outside the repository; those data carriers are
modelled from the specification (sections 3 and 6), while every algorithm
below is a direct translation of the repository source.
-/

/-- Modelled from the spec: the external Variable collaborator (spec sections
3 and 6). A variable carries a name, an immutable initial domain, and a
current-domain and assignment state owned by the external search engine. The
vid field models Python object identity (creation coordinates). -/
structure Variable where
  vid : Nat × Nat
  vname : String
  dom : List Int
  curDom : List Int
  assigned : Bool
deriving DecidableEq

/-- Modelled from the spec: the cur_domain accessor (spec section 6). -/
def Variable.cur_domain (v : Variable) : List Int := v.curDom

/-- Modelled from the spec: the cur_domain_size accessor (spec section 6). -/
def Variable.cur_domain_size (v : Variable) : Nat := v.curDom.length

/-- Modelled from the spec: the fixed-domain accessor (spec section 6). -/
def Variable.domain (v : Variable) : List Int := v.dom

/-- Modelled from the spec: the external Constraint collaborator (spec section
3): a name, an ordered scope and the stored satisfying tuples. -/
structure Constraint where
  cname : String
  scope : List Variable
  tuples : List (List Int)
deriving DecidableEq

/-- Modelled from the spec: the scope accessor (spec section 6). -/
def Constraint.get_scope (c : Constraint) : List Variable := c.scope

/-- Modelled from the spec: the external CSP collaborator (spec section 3). -/
structure CSP where
  cspName : String
  vars : List Variable
  cons : List Constraint
deriving DecidableEq

/-- Modelled from the spec: enumeration of the currently unassigned variables,
in the registration order used as heuristic tie-break order (spec section 6). -/
def CSP.get_all_unasgn_vars (csp : CSP) : List Variable :=
  csp.vars.filter (fun v => !v.assigned)

/-- Modelled from the spec: enumeration of the constraints touching a given
variable (spec section 6). -/
def CSP.get_cons_with_var (csp : CSP) (v : Variable) : List Constraint :=
  csp.cons.filter (fun c => decide (v ∈ c.scope))

/-- Degree count accumulated by ord_dh for one variable: the sum over its
constraints of scope length minus one (src/heuristics.py lines 31 to 34). -/
def dhCount (csp : CSP) (var : Variable) : Int :=
  (csp.get_cons_with_var var).foldl (fun n c => n + ((c.get_scope.length : Int) - 1)) 0

/-- Loop body of ord_dh: a strictly greater count replaces the running best
(src/heuristics.py lines 35 to 37). -/
def dhStep (csp : CSP) (acc : Int × Option Variable) (var : Variable) : Int × Option Variable :=
  let count := dhCount csp var
  if acc.1 < count then (count, some var) else acc

/-- Translation of ord_dh (src/heuristics.py lines 26 to 38): the running
maximum starts at 0 with no candidate. -/
def ord_dh (csp : CSP) : Option Variable :=
  ((csp.get_all_unasgn_vars).foldl (dhStep csp) ((0 : Int), (none : Option Variable))).2

/-- Loop body of ord_mrv: a strictly smaller current-domain size replaces the
running best (src/heuristics.py lines 46 to 48). -/
def mrvStep (acc : Nat × Option Variable) (var : Variable) : Nat × Option Variable :=
  if var.cur_domain_size < acc.1 then (var.cur_domain_size, some var) else acc

/-- Translation of ord_mrv (src/heuristics.py lines 41 to 49): the running
minimum starts at the sentinel 999999 with no candidate. -/
def ord_mrv (csp : CSP) : Option Variable :=
  ((csp.get_all_unasgn_vars).foldl mrvStep ((999999 : Nat), (none : Option Variable))).2

/-- Python dict assignment domains[k] = v: overwrite in place when the key is
present, otherwise append at the end (insertion order preserved). -/
def dictInsert (d : List (Int × Nat)) (k : Int) (v : Nat) : List (Int × Nat) :=
  if d.any (fun p => decide (p.1 = k)) then d.map (fun p => if p.1 = k then (k, v) else p)
  else d ++ [(k, v)]

/-- Stable insertion into a list already sorted ascending by the count. -/
def insertByCount (p : Int × Nat) : List (Int × Nat) → List (Int × Nat)
  | [] => [p]
  | q :: rest => if q.2 ≤ p.2 then q :: insertByCount p rest else p :: q :: rest

/-- Python sorted with key itemgetter(1): a stable ascending sort by count. -/
def sortByCount (l : List (Int × Nat)) : List (Int × Nat) :=
  l.foldl (fun acc p => insertByCount p acc) []

/-- Outer loop body of val_lcv (src/heuristics.py lines 55 to 60). In the
source the count variable is reset inside the inner loop, so after that loop
it reflects only the last iterated unassigned variable; when no unassigned
variable exists the count name is unbound on the first outer iteration and the
call raises, modelled by the none accumulator (sticky). -/
def lcvStep (csp : CSP) (acc : Option (List (Int × Nat) × Option Nat)) (d : Int) :
    Option (List (Int × Nat) × Option Nat) :=
  match acc with
  | none => none
  | some (dict, prev) =>
    match (csp.get_all_unasgn_vars).foldl
        (fun _ v => some (if d ∈ v.cur_domain then (1 : Nat) else 0)) prev with
    | none => none
    | some n => some (dictInsert dict d n, some n)

/-- Translation of val_lcv (src/heuristics.py lines 52 to 62). -/
def val_lcv (csp : CSP) (var : Variable) : Option (List (Int × Nat)) :=
  match (var.cur_domain).foldl (lcvStep csp) (some ([], none)) with
  | none => none
  | some (dict, _) => some (sortByCount dict)

/-- State-threaded reading of ord_dh: every collaborator access inside the loop
is performed against the threaded CSP state, which read-only accessors return
unchanged (spec section 6). -/
def ord_dh_st (csp : CSP) : Option Variable × CSP :=
  let r := (csp.get_all_unasgn_vars).foldl (fun p var => (dhStep p.2 p.1 var, p.2))
    (((0 : Int), (none : Option Variable)), csp)
  (r.1.2, r.2)

/-- State-threaded reading of ord_mrv. -/
def ord_mrv_st (csp : CSP) : Option Variable × CSP :=
  let r := (csp.get_all_unasgn_vars).foldl (fun p var => (mrvStep p.1 var, p.2))
    (((999999 : Nat), (none : Option Variable)), csp)
  (r.1.2, r.2)

/-- State-threaded reading of val_lcv; the threaded state is returned whether
or not the call raises. -/
def val_lcv_st (csp : CSP) (var : Variable) : Option (List (Int × Nat)) × CSP :=
  let r := (var.cur_domain).foldl (fun p d => (lcvStep p.2 p.1 d, p.2))
    ((some (([] : List (Int × Nat)), (none : Option Nat))), csp)
  ((match r.1 with
    | none => none
    | some (dict, _) => some (sortByCount dict)), r.2)

/-- Domain list 1..n, as built by the loop over range(1, dimension + 1)
(src/kenken_csp.py lines 39 to 42). -/
def pydomains (n : Nat) : List Int := (List.range n).map (fun i => Int.ofNat i + 1)

/-- Grid variable at zero-based position (i, j) as created by binary_ne_grid
and nary_ad_grid: name from the one-based coordinates, domain 1..n
(src/kenken_csp.py lines 43 to 48). -/
def gridVar (n i j : Nat) : Variable :=
  ⟨(i, j), toString (i + 1) ++ toString (j + 1), pydomains n, pydomains n, false⟩

/-- Inner double loop of binary_ne_grid collecting the pairs (x, y) with x
different from y from the two variable domains (src/kenken_csp.py lines 58 to
63); a pair is stored as a two-element tuple. -/
def neTuples (d1 d2 : List Int) : List (List Int) :=
  d1.flatMap (fun x => d2.flatMap (fun y => if x ≠ y then [[x, y]] else []))

/-- Constraint emission of binary_ne_grid (src/kenken_csp.py lines 49 to 78):
for indices i, j, k a row constraint when k > j and a column constraint when
k > i, each holding the not-equal tuples over the two variable domains. -/
def binary_ne_cons (n : Nat) : List Constraint :=
  (List.range n).flatMap (fun i =>
    (List.range n).flatMap (fun j =>
      (List.range n).flatMap (fun k =>
        (if j < k then
          [⟨toString (i + 1) ++ toString (j + 1) ++ "," ++ toString (i + 1) ++ toString (k + 1),
            [gridVar n i j, gridVar n i k],
            neTuples (gridVar n i j).domain (gridVar n i k).domain⟩]
         else []) ++
        (if i < k then
          [⟨toString (i + 1) ++ toString (j + 1) ++ "," ++ toString (k + 1) ++ toString (j + 1) ++ ")",
            [gridVar n i j, gridVar n k j],
            neTuples (gridVar n i j).domain (gridVar n k j).domain⟩]
         else []))))

/-- Translation of binary_ne_grid (src/kenken_csp.py lines 36 to 87). -/
def binary_ne_grid (kenken_grid : List (List Int)) : CSP × List (List Variable) :=
  let dimension := ((kenken_grid.headD []).headD 0).toNat
  let vars := (List.range dimension).map (fun i => (List.range dimension).map (gridVar dimension i))
  (⟨"binary", vars.flatten, binary_ne_cons dimension⟩, vars)

/-- Element added to an n-ary constraint. The source passes tuples of Variable
objects where tuples of domain values would be expected; the dynamically typed
store is modelled as a sum of the two shapes that could flow there. -/
inductive NAryElem where
  | varPair : Variable → Variable → NAryElem
  | intTuple : List Int → NAryElem
deriving DecidableEq

/-- An n-ary row or column constraint: name, scope, and the elements passed to
add_satisfying_tuples, one call per element (src/kenken_csp.py lines 114 to
121). -/
structure NAryConstraint where
  ncname : String
  scope : List Variable
  addedBatches : List NAryElem
deriving DecidableEq

/-- All two-element tuples from the cross product of the scope with itself, in
itertools.product order (src/kenken_csp.py lines 115 and 120). -/
def allScopePairs (scope : List Variable) : List NAryElem :=
  scope.flatMap (fun a => scope.map (fun b => NAryElem.varPair a b))

/-- One n-ary constraint of nary_ad_grid: the pairs are added only when the
scope has no duplicate variable references, which the source checks by
comparing the scope length with the size of its set (src/kenken_csp.py lines
114 and 119). -/
def mkNAryCon (nm : String) (scope : List Variable) : NAryConstraint :=
  ⟨nm, scope, if scope.dedup.length = scope.length then allScopePairs scope else []⟩

/-- Row i of the grid variables (src/kenken_csp.py line 109). -/
def rowVars (n i : Nat) : List Variable := (List.range n).map (fun j => gridVar n i j)

/-- Column i of the grid variables (src/kenken_csp.py line 110). -/
def colVars (n i : Nat) : List Variable := (List.range n).map (fun j => gridVar n j i)

/-- Constraint emission of nary_ad_grid (src/kenken_csp.py lines 105 to 122):
one row and one column constraint per index, appended in that order. -/
def nary_ad_cons (n : Nat) : List NAryConstraint :=
  (List.range n).flatMap (fun i =>
    [mkNAryCon ("row" ++ toString i) (rowVars n i),
     mkNAryCon ("col" ++ toString i) (colVars n i)])

/-- A CSP holding n-ary constraints (their stored elements have the shape the
source actually produces). -/
structure NAryCSP where
  nname : String
  vars : List Variable
  cons : List NAryConstraint
deriving DecidableEq

/-- Translation of nary_ad_grid (src/kenken_csp.py lines 90 to 131). -/
def nary_ad_grid (kenken_grid : List (List Int)) : NAryCSP × List (List Variable) :=
  let dimension := ((kenken_grid.headD []).headD 0).toNat
  let vars := (List.range dimension).map (fun i => (List.range dimension).map (gridVar dimension i))
  (⟨"n-ary", vars.flatten, nary_ad_cons dimension⟩, vars)

/-- Left fold of subtraction over a permutation: result starts at the head and
the remaining entries are subtracted in order (src/kenken_csp.py lines 181 to
185). -/
def foldSub : List Int → Int
  | [] => 0
  | h :: t => t.foldl (fun a b => a - b) h

/-- Left fold of Python floor division over a permutation (src/kenken_csp.py
lines 191 to 195). -/
def foldDiv : List Int → Int
  | [] => 0
  | h :: t => t.foldl (fun a b => Int.fdiv a b) h

/-- Cross product of a list of domains, in itertools.product order. -/
def listProd : List (List Int) → List (List Int)
  | [] => [[]]
  | d :: ds => d.flatMap (fun x => (listProd ds).map (fun t => x :: t))

/-- Tuple test of the cage loop: the lists appended for one candidate tuple t
(src/kenken_csp.py lines 170 to 204). Operation codes: 0 add, 1 subtract, 2
integer divide, 3 multiply; for 1 and 2 the original tuple is appended once
per permutation whose left fold hits the target. -/
def cageTupleTest (operation target : Int) (t : List Int) : List (List Int) :=
  if operation = 0 then (if t.foldl (fun a b => a + b) 0 = target then [t] else [])
  else if operation = 1 then
    t.permutations.flatMap (fun p => if foldSub p = target then [t] else [])
  else if operation = 2 then
    t.permutations.flatMap (fun p => if foldDiv p = target then [t] else [])
  else if operation = 3 then (if t.foldl (fun a b => a * b) 1 = target then [t] else [])
  else []

/-- Satisfying-tuple list of a multi-cell cage over the given domains. -/
def cageSatisfying (operation target : Int) (doms : List (List Int)) : List (List Int) :=
  (listProd doms).flatMap (cageTupleTest operation target)

/-- Default Variable used for out-of-interest list lookups. -/
def dummyVar : Variable := ⟨(0, 0), "", [], [], false⟩

/-- Initial kenken grid variable (name with the Var prefix, src/kenken_csp.py
line 145). -/
def gridVarK (n i j : Nat) : Variable :=
  ⟨(i, j), "Var " ++ toString (i + 1) ++ toString (j + 1), pydomains n, pydomains n, false⟩

/-- Initial kenken variable grid (src/kenken_csp.py lines 141 to 146). -/
def initVarsK (n : Nat) : List (List Variable) :=
  (List.range n).map (fun i => (List.range n).map (gridVarK n i))

/-- Overwrite of one grid position. -/
def setGrid (vs : List (List Variable)) (i j : Nat) (v : Variable) : List (List Variable) :=
  vs.set i ((vs.getD i []).set j v)

/-- Grid lookup from a cell identifier: row is cell div 10, column is cell mod
10, both one-indexed (src/kenken_csp.py lines 162 to 164). -/
def lookupVar (vs : List (List Variable)) (cell : Int) : Variable :=
  (vs.getD (cell.fdiv 10 - 1).toNat []).getD (cell.emod 10 - 1).toNat dummyVar

/-- Singleton cage handling (src/kenken_csp.py lines 151 to 155): the grid
position resolved from the cell identifier is overwritten with a fresh
Variable whose domain is the single fixed value. -/
def cageStep (vs : List (List Variable)) (cage : List Int) : List (List Variable) :=
  if cage.length = 2 then
    let cell := cage.headD 0
    let i := (cell.fdiv 10 - 1).toNat
    let j := (cell.emod 10 - 1).toNat
    setGrid vs i j
      ⟨(i, j), toString (cell.fdiv 10 - 1) ++ toString (cell.emod 10 - 1),
       [cage.getD 1 0], [cage.getD 1 0], false⟩
  else vs

/-- One pass of the cage loop of kenken_csp_model (src/kenken_csp.py lines 149
to 206), with the cage index from enumeration: a length-2 descriptor
overwrites the grid, a longer descriptor appends a constraint whose tuples
come from cageSatisfying over the current variable domains, anything shorter
is skipped. The constraint object the source builds for a singleton cage is
discarded there (never appended), so it leaves no trace here. -/
def cageFoldStep (st : List (List Variable) × List Constraint) (ic : Nat × List Int) :
    List (List Variable) × List Constraint :=
  let cage := ic.2
  if cage.length = 2 then (cageStep st.1 cage, st.2)
  else if 2 < cage.length then
    let target := cage.getD (cage.length - 2) 0
    let operation := cage.getD (cage.length - 1) 0
    let cells := cage.take (cage.length - 2)
    let c_vars := cells.map (lookupVar st.1)
    let c_doms := c_vars.map Variable.domain
    (st.1, st.2 ++ [⟨"cage " ++ toString ic.1, c_vars, cageSatisfying operation target c_doms⟩])
  else st

/-- The cage loop of kenken_csp_model: final variable grid and cage
constraints. -/
def cageFold (n : Nat) (g : List (List Int)) : List (List Variable) × List Constraint :=
  g.enum.foldl cageFoldStep (initVarsK n, [])

/-- Binary not-equal layer of kenken_csp_model over the possibly overwritten
variable grid (src/kenken_csp.py lines 209 to 237). -/
def kenkenBinaryCons (vs : List (List Variable)) (n : Nat) : List Constraint :=
  (List.range n).flatMap (fun i =>
    (List.range n).flatMap (fun j =>
      (List.range (vs.getD i []).length).flatMap (fun k =>
        (if j < k then
          [⟨"Var " ++ toString (i + 1) ++ toString (j + 1) ++ ", Var " ++
              toString (i + 1) ++ toString (k + 1),
            [(vs.getD i []).getD j dummyVar, (vs.getD i []).getD k dummyVar],
            neTuples ((vs.getD i []).getD j dummyVar).domain
              ((vs.getD i []).getD k dummyVar).domain⟩]
         else []) ++
        (if i < k then
          [⟨"Var " ++ toString (i + 1) ++ toString (j + 1) ++ ", Var " ++
              toString (k + 1) ++ toString (j + 1),
            [(vs.getD i []).getD j dummyVar, (vs.getD k []).getD j dummyVar],
            neTuples ((vs.getD i []).getD j dummyVar).domain
              ((vs.getD k []).getD j dummyVar).domain⟩]
         else []))))

/-- Translation of kenken_csp_model (src/kenken_csp.py lines 134 to 246): the
cage layer followed by the binary not-equal layer over the final grid. -/
def kenken_csp_model (kenken_grid : List (List Int)) : CSP × List (List Variable) :=
  let dimension := ((kenken_grid.headD []).headD 0).toNat
  let vc := cageFold dimension kenken_grid
  (⟨"kenken", vc.1.flatten, vc.2 ++ kenkenBinaryCons vc.1 dimension⟩, vc.1)

/-- Variable grid returned by kenken_csp_model. -/
def kenkenVars (kenken_grid : List (List Int)) : List (List Variable) :=
  (kenken_csp_model kenken_grid).2

/-- Concrete CSP with one unassigned variable whose single constraint has a
two-variable scope (degree count one). -/
def cspD : CSP :=
  ⟨"d", [⟨(0, 0), "A", [1], [1], false⟩],
   [⟨"c1", [⟨(0, 0), "A", [1], [1], false⟩, ⟨(9, 9), "B", [1], [1], true⟩], []⟩]⟩

/-- Concrete CSP whose unassigned variables have current-domain sizes 3, 1, 2
in iteration order. -/
def vA3 : Variable := ⟨(0, 0), "A", pydomains 3, pydomains 3, false⟩

/-- Second variable of the MRV example, current-domain size 1. -/
def vB1 : Variable := ⟨(0, 1), "B", pydomains 1, pydomains 1, false⟩

/-- Third variable of the MRV example, current-domain size 2. -/
def vC2 : Variable := ⟨(0, 2), "C", pydomains 2, pydomains 2, false⟩

/-- The MRV example CSP with sizes 3, 1, 2. -/
def cspM : CSP := ⟨"m", [vA3, vB1, vC2], []⟩

/-- A variable whose current domain has exactly 999999 values. -/
def vBig : Variable := ⟨(0, 0), "A", pydomains 999999, pydomains 999999, false⟩

/-- A CSP whose only unassigned variable has current-domain size 999999. -/
def cspBig : CSP := ⟨"big", [vBig], []⟩

/-- First variable of the val_lcv example: current domain 1, 2. -/
def vL1 : Variable := ⟨(0, 0), "A", [1, 2], [1, 2], false⟩

/-- Second variable of the val_lcv example: current domain holds 1. -/
def vL2 : Variable := ⟨(0, 1), "B", [1], [1], false⟩

/-- Third and last-iterated variable of the val_lcv example: holds 2 only. -/
def vL3 : Variable := ⟨(0, 2), "C", [2], [2], false⟩

/-- The val_lcv example CSP: unassigned order A, B, C. -/
def cspL : CSP := ⟨"l", [vL1, vL2, vL3], []⟩

/-- First constraint generated by binary_ne_grid for dimension 2. -/
def conB : Constraint := (binary_ne_cons 2).headD ⟨"", [], []⟩

/-- First constraint generated by nary_ad_grid for dimension 2 (row 0). -/
def conN : NAryConstraint := (nary_ad_cons 2).headD ⟨"", [], []⟩

/-- Membership in a conditional singleton list. -/
theorem mem_if_singleton {α : Type} {c : Prop} [Decidable c] {x t : α} :
    (x ∈ if c then [t] else []) ↔ c ∧ x = t := by
  by_cases h : c
  · simp [h]
  · simp [h]

/-- A fold whose step leaves the threaded state untouched computes the
stateless fold and returns the initial state. -/
theorem foldl_state {α β σ : Type} (f : α × σ → β → α × σ) (g : α → β → α) (s₀ : σ)
    (h : ∀ a b, f (a, s₀) b = (g a b, s₀)) :
    ∀ (l : List β) (a : α), l.foldl f (a, s₀) = (l.foldl g a, s₀) := by
  intro l
  induction l with
  | nil => intro a; rfl
  | cons b t ih => intro a; rw [List.foldl_cons, List.foldl_cons, h, ih]

/-- Reading back a freshly set list position. -/
theorem getD_set_self {α : Type} (l : List α) (i : Nat) (a d : α) (h : i < l.length) :
    (l.set i a).getD i d = a := by
  induction l generalizing i with
  | nil => simp at h
  | cons x t ih =>
    cases i with
    | zero => rfl
    | succ m => simpa using ih m (by simpa using h)

/-- Characterisation of the ord_dh fold from any accumulator: either no
element beats the running maximum and the accumulator is returned, or the
result is the first element of the list attaining the overall maximum among
those that beat it. -/
theorem dh_go (csp : CSP) (l : List Variable) : ∀ (m : Int) (o : Option Variable),
    ((∀ v ∈ l, dhCount csp v ≤ m) ∧ l.foldl (dhStep csp) (m, o) = (m, o))
    ∨ ∃ z l₁ l₂, l.foldl (dhStep csp) (m, o) = (dhCount csp z, some z)
        ∧ l = l₁ ++ z :: l₂ ∧ m < dhCount csp z
        ∧ (∀ u ∈ l₁, dhCount csp u < dhCount csp z)
        ∧ (∀ u ∈ l₂, dhCount csp u ≤ dhCount csp z) := by
  induction l with
  | nil => intro m o; exact Or.inl ⟨by simp, rfl⟩
  | cons v t ih =>
    intro m o
    by_cases h : m < dhCount csp v
    · have hstep : dhStep csp (m, o) v = (dhCount csp v, some v) := by
        simp [dhStep, h]
      rcases ih (dhCount csp v) (some v) with ⟨hall, heq⟩ | ⟨z, l₁, l₂, heq, hsplit, hlt, h₁, h₂⟩
      · refine Or.inr ⟨v, [], t, ?_, by simp, h, by simp, hall⟩
        rw [List.foldl_cons, hstep, heq]
      · refine Or.inr ⟨z, v :: l₁, l₂, ?_, by simp [hsplit], lt_trans h hlt, ?_, h₂⟩
        · rw [List.foldl_cons, hstep, heq]
        · intro u hu
          rcases List.mem_cons.mp hu with rfl | hu
          · exact hlt
          · exact h₁ u hu
    · have hstep : dhStep csp (m, o) v = (m, o) := by
        simp [dhStep, h]
      rcases ih m o with ⟨hall, heq⟩ | ⟨z, l₁, l₂, heq, hsplit, hlt, h₁, h₂⟩
      · refine Or.inl ⟨?_, by rw [List.foldl_cons, hstep, heq]⟩
        intro u hu
        rcases List.mem_cons.mp hu with rfl | hu
        · exact le_of_not_lt h
        · exact hall u hu
      · refine Or.inr ⟨z, v :: l₁, l₂, ?_, by simp [hsplit], hlt, ?_, h₂⟩
        · rw [List.foldl_cons, hstep, heq]
        · intro u hu
          rcases List.mem_cons.mp hu with rfl | hu
          · exact lt_of_le_of_lt (le_of_not_lt h) hlt
          · exact h₁ u hu

/-- Characterisation of the ord_mrv fold from any accumulator: either no
element is below the running minimum and the accumulator is returned, or the
result is the first element attaining the overall minimum among those below
it. -/
theorem mrv_go (l : List Variable) : ∀ (m : Nat) (o : Option Variable),
    ((∀ v ∈ l, m ≤ v.cur_domain_size) ∧ l.foldl mrvStep (m, o) = (m, o))
    ∨ ∃ z l₁ l₂, l.foldl mrvStep (m, o) = (z.cur_domain_size, some z)
        ∧ l = l₁ ++ z :: l₂ ∧ z.cur_domain_size < m
        ∧ (∀ u ∈ l₁, z.cur_domain_size < u.cur_domain_size)
        ∧ (∀ u ∈ l₂, z.cur_domain_size ≤ u.cur_domain_size) := by
  induction l with
  | nil => intro m o; exact Or.inl ⟨by simp, rfl⟩
  | cons v t ih =>
    intro m o
    by_cases h : v.cur_domain_size < m
    · have hstep : mrvStep (m, o) v = (v.cur_domain_size, some v) := by
        simp [mrvStep, h]
      rcases ih v.cur_domain_size (some v) with ⟨hall, heq⟩ | ⟨z, l₁, l₂, heq, hsplit, hlt, h₁, h₂⟩
      · refine Or.inr ⟨v, [], t, ?_, by simp, h, by simp, hall⟩
        rw [List.foldl_cons, hstep, heq]
      · refine Or.inr ⟨z, v :: l₁, l₂, ?_, by simp [hsplit], lt_trans hlt h, ?_, h₂⟩
        · rw [List.foldl_cons, hstep, heq]
        · intro u hu
          rcases List.mem_cons.mp hu with rfl | hu
          · exact hlt
          · exact h₁ u hu
    · have hstep : mrvStep (m, o) v = (m, o) := by
        simp [mrvStep, h]
      rcases ih m o with ⟨hall, heq⟩ | ⟨z, l₁, l₂, heq, hsplit, hlt, h₁, h₂⟩
      · refine Or.inl ⟨?_, by rw [List.foldl_cons, hstep, heq]⟩
        intro u hu
        rcases List.mem_cons.mp hu with rfl | hu
        · exact le_of_not_lt h
        · exact hall u hu
      · refine Or.inr ⟨z, v :: l₁, l₂, ?_, by simp [hsplit], hlt, ?_, h₂⟩
        · rw [List.foldl_cons, hstep, heq]
        · intro u hu
          rcases List.mem_cons.mp hu with rfl | hu
          · exact lt_of_lt_of_le hlt (le_of_not_lt h)
          · exact h₁ u hu

/-- C9: with the running maximum initialised to 0 and only a strictly greater
count installing a candidate, ord_dh returns no selection whenever every
unassigned variable has degree count zero, even though unassigned variables
exist. -/
theorem ord_dh_zero_none_ok (csp : CSP) (hne : csp.get_all_unasgn_vars ≠ [])
    (hzero : ∀ v ∈ csp.get_all_unasgn_vars, dhCount csp v = 0) :
    ord_dh csp = none := by
  rcases dh_go csp csp.get_all_unasgn_vars 0 none with ⟨_, heq⟩ |
    ⟨z, l₁, l₂, heq, hsplit, hpos, _, _⟩
  · simp [ord_dh, heq]
  · have hz : z ∈ csp.get_all_unasgn_vars := by
      rw [hsplit]; exact List.mem_append_right _ (List.mem_cons_self z l₂)
    rw [hzero z hz] at hpos
    exact absurd hpos (lt_irrefl 0)

/-- Witness for C9: one unassigned variable, no constraints, selection none. -/
theorem ord_dh_zero_none_ok_witness :
    ord_dh ⟨"w9", [⟨(0, 0), "A", [1], [1], false⟩], []⟩ = none :=
  ord_dh_zero_none_ok ⟨"w9", [⟨(0, 0), "A", [1], [1], false⟩], []⟩ (by decide) (by decide)

/-- C5 counterexample: a CSP with exactly one unassigned variable and no
constraints; the claim as stated selects the unassigned variable with the
greatest count (the only one here), but the code returns no selection. -/
theorem ord_dh_claim_cex :
    ord_dh ⟨"c5", [⟨(0, 1), "A", [1], [1], false⟩], []⟩ = none
    ∧ (CSP.mk "c5" [⟨(0, 1), "A", [1], [1], false⟩] []).get_all_unasgn_vars
        = [⟨(0, 1), "A", [1], [1], false⟩] :=
  ⟨by decide, by decide⟩

/-- C5 (amended): ord_dh selects, among the unassigned variables, the first
one attaining the maximal degree count provided that count is strictly
positive; with no unassigned variable, or when every unassigned variable has
count at most zero, it returns none. -/
theorem ord_dh_first_max_ok (csp : CSP) :
    ((∀ v ∈ csp.get_all_unasgn_vars, dhCount csp v ≤ 0) → ord_dh csp = none)
    ∧ (∀ w ∈ csp.get_all_unasgn_vars, 0 < dhCount csp w →
        ∃ z l₁ l₂, ord_dh csp = some z
          ∧ csp.get_all_unasgn_vars = l₁ ++ z :: l₂
          ∧ 0 < dhCount csp z
          ∧ (∀ u ∈ l₁, dhCount csp u < dhCount csp z)
          ∧ (∀ u ∈ l₂, dhCount csp u ≤ dhCount csp z)) := by
  constructor
  · intro hall
    rcases dh_go csp csp.get_all_unasgn_vars 0 none with ⟨_, heq⟩ |
      ⟨z, l₁, l₂, heq, hsplit, hpos, _, _⟩
    · simp [ord_dh, heq]
    · have hz : z ∈ csp.get_all_unasgn_vars := by
        rw [hsplit]; exact List.mem_append_right _ (List.mem_cons_self z l₂)
      exact absurd hpos (not_lt.mpr (hall z hz))
  · intro w hw hpos
    rcases dh_go csp csp.get_all_unasgn_vars 0 none with ⟨hall, _⟩ |
      ⟨z, l₁, l₂, heq, hsplit, hzpos, h₁, h₂⟩
    · exact absurd hpos (not_lt.mpr (hall w hw))
    · exact ⟨z, l₁, l₂, by simp [ord_dh, heq], hsplit, hzpos, h₁, h₂⟩

/-- Witness for the amended C5: a variable with degree count one is selected
as the first maximum. -/
theorem ord_dh_first_max_ok_witness :
    ∃ z l₁ l₂, ord_dh cspD = some z
      ∧ cspD.get_all_unasgn_vars = l₁ ++ z :: l₂
      ∧ 0 < dhCount cspD z
      ∧ (∀ u ∈ l₁, dhCount cspD u < dhCount cspD z)
      ∧ (∀ u ∈ l₂, dhCount cspD u ≤ dhCount cspD z) :=
  (ord_dh_first_max_ok cspD).2 ⟨(0, 0), "A", [1], [1], false⟩ (by decide) (by decide)

/-- Length of the 1..n domain list. -/
theorem pydomains_length (n : Nat) : (pydomains n).length = n := by
  rw [pydomains, List.length_map, List.length_range]

/-- C6 counterexample: a CSP with one unassigned variable whose current-domain
size equals the 999999 sentinel; the claim as stated returns the unassigned
variable of smallest current-domain size, but the code returns none. -/
theorem ord_mrv_claim_cex :
    ord_mrv cspBig = none ∧ cspBig.get_all_unasgn_vars = [vBig] := by
  have hus : cspBig.get_all_unasgn_vars = [vBig] := by
    simp [cspBig, CSP.get_all_unasgn_vars, vBig]
  have hlen : vBig.cur_domain_size = 999999 := by
    simp only [vBig, Variable.cur_domain_size]
    exact pydomains_length 999999
  refine ⟨?_, hus⟩
  rw [ord_mrv, hus, List.foldl_cons, List.foldl_nil]
  rw [mrvStep, hlen]
  norm_num

/-- C6 (amended): whenever some unassigned variable has current-domain size
below the 999999 sentinel, ord_mrv returns the first unassigned variable
attaining the minimal current-domain size, in the iteration order supplied by
the CSP; whenever no unassigned variable has size below the sentinel (the
no-unassigned case included), it returns none; in particular with sizes 3, 1,
2 in order A, B, C it returns B. -/
theorem ord_mrv_first_min_ok :
    (∀ csp : CSP, ∀ w ∈ csp.get_all_unasgn_vars, w.cur_domain_size < 999999 →
      ∃ z l₁ l₂, ord_mrv csp = some z
        ∧ csp.get_all_unasgn_vars = l₁ ++ z :: l₂
        ∧ (∀ u ∈ l₁, z.cur_domain_size < u.cur_domain_size)
        ∧ (∀ u ∈ l₂, z.cur_domain_size ≤ u.cur_domain_size))
    ∧ (∀ csp : CSP, (∀ v ∈ csp.get_all_unasgn_vars, 999999 ≤ v.cur_domain_size) →
        ord_mrv csp = none)
    ∧ ord_mrv cspM = some vB1 := by
  refine ⟨?_, ?_, by decide⟩
  · intro csp w hw hlt
    rcases mrv_go csp.get_all_unasgn_vars 999999 none with ⟨hall, _⟩ |
      ⟨z, l₁, l₂, heq, hsplit, _, h₁, h₂⟩
    · exact absurd hlt (not_lt.mpr (hall w hw))
    · exact ⟨z, l₁, l₂, by simp [ord_mrv, heq], hsplit, h₁, h₂⟩
  · intro csp hall
    rcases mrv_go csp.get_all_unasgn_vars 999999 none with ⟨_, heq⟩ |
      ⟨z, l₁, l₂, heq, hsplit, hlt, _, _⟩
    · simp [ord_mrv, heq]
    · have hz : z ∈ csp.get_all_unasgn_vars := by
        rw [hsplit]; exact List.mem_append_right _ (List.mem_cons_self z l₂)
      exact absurd hlt (not_lt.mpr (hall z hz))

/-- Witness for the amended C6: the selection branch applied to the size 3, 1,
2 example, and the sentinel branch applied to a CSP whose only unassigned
variable has current-domain size exactly 999999. -/
theorem ord_mrv_first_min_ok_witness :
    (∃ z l₁ l₂, ord_mrv cspM = some z
      ∧ cspM.get_all_unasgn_vars = l₁ ++ z :: l₂
      ∧ (∀ u ∈ l₁, z.cur_domain_size < u.cur_domain_size)
      ∧ (∀ u ∈ l₂, z.cur_domain_size ≤ u.cur_domain_size))
    ∧ ord_mrv cspBig = none :=
  ⟨ord_mrv_first_min_ok.1 cspM vB1 (by decide) (by decide),
   ord_mrv_first_min_ok.2.1 cspBig (by
     intro v hv
     have hus : cspBig.get_all_unasgn_vars = [vBig] := by
       simp [cspBig, CSP.get_all_unasgn_vars, vBig]
     rw [hus] at hv
     rcases List.mem_singleton.mp hv with rfl
     have hlen : vBig.cur_domain_size = 999999 := by
       simp only [vBig, Variable.cur_domain_size]
       exact pydomains_length 999999
     omega)⟩

/-- C8: the three heuristics, read through state-threaded collaborator
accesses that are read-only queries (spec section 6), hand the CSP state back
unchanged and agree with their value-level translations: no domain,
assignment, variable set or constraint set is modified. -/
theorem heuristics_state_ok (csp : CSP) (var : Variable) :
    ord_dh_st csp = (ord_dh csp, csp)
    ∧ ord_mrv_st csp = (ord_mrv csp, csp)
    ∧ val_lcv_st csp var = (val_lcv csp var, csp) := by
  refine ⟨?_, ?_, ?_⟩
  · show (((csp.get_all_unasgn_vars).foldl (fun p var => (dhStep p.2 p.1 var, p.2))
        (((0 : Int), (none : Option Variable)), csp)).1.2, _) = _
    rw [foldl_state (fun p var => (dhStep p.2 p.1 var, p.2)) (dhStep csp) csp
      (fun _ _ => rfl)]
    rfl
  · show (((csp.get_all_unasgn_vars).foldl (fun p var => (mrvStep p.1 var, p.2))
        (((999999 : Nat), (none : Option Variable)), csp)).1.2, _) = _
    rw [foldl_state (fun p var => (mrvStep p.1 var, p.2)) mrvStep csp (fun _ _ => rfl)]
    rfl
  · show ((match ((var.cur_domain).foldl (fun p d => (lcvStep p.2 p.1 d, p.2))
        ((some (([] : List (Int × Nat)), (none : Option Nat))), csp)).1 with
      | none => none
      | some (dict, _) => some (sortByCount dict)), _) = _
    rw [foldl_state (fun p d => (lcvStep p.2 p.1 d, p.2)) (lcvStep csp) csp
      (fun _ _ => rfl)]
    rfl

/-- C1: evaluation of val_lcv at the failing input. The unassigned variables
are A, B, C with current domains 1 2, 1, 2 and the query variable is A: the
number of other unassigned variables holding value 1 is one (B), yet the code
reports the pair (1, 0) because its count only reflects the last iterated
variable C; value 2 gets count 1 from C. -/
theorem val_lcv_last_only_eval :
    val_lcv cspL vL1 = some [(1, 0), (2, 1)] := by decide

/-- Membership in the 1..n domain list. -/
theorem mem_pydomains (n : Nat) (x : Int) : x ∈ pydomains n ↔ 1 ≤ x ∧ x ≤ (n : Int) := by
  simp only [pydomains, List.mem_map, List.mem_range, Int.ofNat_eq_natCast]
  constructor
  · rintro ⟨i, hi, rfl⟩
    constructor <;> omega
  · intro h
    exact ⟨(x - 1).toNat, by omega, by omega⟩

/-- The 1..n domain list has no duplicates. -/
theorem pydomains_nodup (n : Nat) : (pydomains n).Nodup := by
  refine List.Nodup.map ?_ (List.nodup_range n)
  intro a b h
  simp only [Int.ofNat_eq_natCast] at h
  omega

/-- Membership in the not-equal pair list. -/
theorem mem_neTuples (d1 d2 : List Int) (p : List Int) :
    p ∈ neTuples d1 d2 ↔ ∃ x ∈ d1, ∃ y ∈ d2, x ≠ y ∧ p = [x, y] := by
  simp only [neTuples, List.mem_flatMap, mem_if_singleton]

/-- Length of the guarded pair list equals the length of the filtered list. -/
theorem length_flatMap_if (x : Int) (l : List Int) :
    (l.flatMap (fun y => if x ≠ y then [[x, y]] else [])).length
      = (l.filter (fun y => decide (x ≠ y))).length := by
  induction l with
  | nil => rfl
  | cons a t ih =>
    rw [List.flatMap_cons, List.filter_cons, List.length_append, ih]
    by_cases h : x ≠ a
    · rw [if_pos h, decide_eq_true h, if_pos rfl]
      simp [Nat.add_comm]
    · rw [if_neg h, decide_eq_false h, if_neg (by simp)]
      simp

/-- Removing one member of a duplicate-free list by filtering drops exactly
one element. -/
theorem filter_ne_length (l : List Int) (x : Int) (hl : l.Nodup) (hx : x ∈ l) :
    (l.filter (fun y => decide (x ≠ y))).length = l.length - 1 := by
  induction l with
  | nil => cases hx
  | cons a t ih =>
    rcases List.nodup_cons.mp hl with ⟨ha, ht⟩
    by_cases h : x = a
    · subst h
      have hfil : t.filter (fun y => decide (x ≠ y)) = t := by
        apply List.filter_eq_self.mpr
        intro b hb
        simp only [decide_eq_true_eq]
        intro hxb
        exact ha (by rwa [hxb])
      have hd : decide (x ≠ x) = false := by simp
      rw [List.filter_cons, hd, if_neg (by simp), hfil, List.length_cons]
      omega
    · have hxt : x ∈ t := by
        rcases List.mem_cons.mp hx with h1 | h1
        · exact absurd h1 h
        · exact h1
      have hlen := ih ht hxt
      have htpos : 0 < t.length := List.length_pos.mpr (by rintro rfl; cases hxt)
      have hd : decide (x ≠ a) = true := decide_eq_true h
      rw [List.filter_cons, hd, if_pos rfl, List.length_cons, hlen, List.length_cons]
      omega

/-- The not-equal pair list over the 1..n domains holds n times n minus one
tuples. -/
theorem neTuples_length (n : Nat) :
    (neTuples (pydomains n) (pydomains n)).length = n * (n - 1) := by
  rw [neTuples, List.length_flatMap]
  have hmap : List.map (List.length ∘ fun x => (pydomains n).flatMap
        (fun y => if x ≠ y then [[x, y]] else [])) (pydomains n)
      = List.replicate n (n - 1) := by
    rw [List.eq_replicate_iff]
    constructor
    · rw [List.length_map, pydomains_length]
    · intro b hb
      rcases List.mem_map.mp hb with ⟨x, hx, rfl⟩
      simp only [Function.comp_apply]
      rw [length_flatMap_if, filter_ne_length _ _ (pydomains_nodup n) hx, pydomains_length]
  rw [hmap, List.sum_replicate, smul_eq_mul]

/-- The constraint list of binary_ne_grid for a one-descriptor encoding of
dimension n. -/
theorem binary_ne_grid_cons (n : Nat) :
    (binary_ne_grid [[(n : Int)]]).1.cons = binary_ne_cons n := by
  simp [binary_ne_grid]

/-- Every constraint of binary_ne_cons stores exactly the not-equal tuple list
over the 1..n domains. -/
theorem binary_ne_cons_tuples (n : Nat) (con : Constraint) (h : con ∈ binary_ne_cons n) :
    con.tuples = neTuples (pydomains n) (pydomains n) := by
  simp only [binary_ne_cons, List.mem_flatMap, List.mem_append, List.mem_range,
    mem_if_singleton] at h
  obtain ⟨i, _, j, _, k, _, hcase⟩ := h
  rcases hcase with ⟨_, rfl⟩ | ⟨_, rfl⟩ <;> rfl

/-- C3: every binary constraint generated by binary_ne_grid (all of which join
a pair of distinct cells sharing a row or a column) has as tuple set exactly
the pairs (x, y) with x different from y and both in 1..n, and it holds
exactly n times n minus one tuples. -/
theorem binary_ne_tuples_ok (n : Nat) (hn : 1 ≤ n) (con : Constraint)
    (hcon : con ∈ (binary_ne_grid [[(n : Int)]]).1.cons) :
    (∀ p, p ∈ con.tuples ↔
      ∃ x y : Int, p = [x, y] ∧ x ≠ y ∧ 1 ≤ x ∧ x ≤ (n : Int) ∧ 1 ≤ y ∧ y ≤ (n : Int))
    ∧ con.tuples.length = n * (n - 1) := by
  rw [binary_ne_grid_cons] at hcon
  have ht := binary_ne_cons_tuples n con hcon
  constructor
  · intro p
    rw [ht, mem_neTuples]
    constructor
    · rintro ⟨x, hx, y, hy, hne2, rfl⟩
      obtain ⟨hx1, hx2⟩ := (mem_pydomains n x).mp hx
      obtain ⟨hy1, hy2⟩ := (mem_pydomains n y).mp hy
      exact ⟨x, y, rfl, hne2, hx1, hx2, hy1, hy2⟩
    · rintro ⟨x, y, rfl, hne2, hx1, hx2, hy1, hy2⟩
      exact ⟨x, (mem_pydomains n x).mpr ⟨hx1, hx2⟩, y,
        (mem_pydomains n y).mpr ⟨hy1, hy2⟩, hne2, rfl⟩
  · rw [ht]
    exact neTuples_length n

/-- Witness for C3: the first constraint of the dimension 2 binary grid. -/
theorem binary_ne_tuples_ok_witness :
    (([1, 2] : List Int) ∈ conB.tuples ↔
      ∃ x y : Int, ([1, 2] : List Int) = [x, y] ∧ x ≠ y
        ∧ 1 ≤ x ∧ x ≤ (2 : Int) ∧ 1 ≤ y ∧ y ≤ (2 : Int))
    ∧ conB.tuples.length = 2 * (2 - 1) :=
  ⟨(binary_ne_tuples_ok 2 (by decide) conB (by decide)).1 [1, 2],
   (binary_ne_tuples_ok 2 (by decide) conB (by decide)).2⟩

/-- C4: processing a singleton cage descriptor of the form cell then value
replaces the grid position at row cell div 10 and column cell mod 10 (both
one-indexed) with a fresh Variable whose fixed and current domain are exactly
the single value; in particular the cage 11 then 7 on a 9 by 9 board yields at
zero-based position (0, 0) a variable with domain exactly 7. -/
theorem singleton_cage_ok :
    (∀ (vs : List (List Variable)) (cell v : Int),
      ((cell.fdiv 10 - 1).toNat < vs.length) →
      ((cell.emod 10 - 1).toNat < (vs.getD (cell.fdiv 10 - 1).toNat []).length) →
      (((cageStep vs [cell, v]).getD (cell.fdiv 10 - 1).toNat []).getD
          (cell.emod 10 - 1).toNat dummyVar).dom = [v]
      ∧ (((cageStep vs [cell, v]).getD (cell.fdiv 10 - 1).toNat []).getD
          (cell.emod 10 - 1).toNat dummyVar).curDom = [v])
    ∧ ((kenkenVars [[9], [11, 7]]).getD 0 []).getD 0 dummyVar
        = ⟨(0, 0), "00", [7], [7], false⟩ := by
  constructor
  · intro vs cell v hi hj
    have hstep : cageStep vs [cell, v]
        = setGrid vs (cell.fdiv 10 - 1).toNat (cell.emod 10 - 1).toNat
            ⟨((cell.fdiv 10 - 1).toNat, (cell.emod 10 - 1).toNat),
             toString (cell.fdiv 10 - 1) ++ toString (cell.emod 10 - 1),
             [v], [v], false⟩ := rfl
    rw [hstep, setGrid, getD_set_self _ _ _ _ hi, getD_set_self _ _ _ _ hj]
    exact ⟨rfl, rfl⟩
  · decide

/-- Witness for C4: the singleton cage 11 then 7 applied to a fresh 2 by 2
grid. -/
theorem singleton_cage_ok_witness :
    (((cageStep (initVarsK 2) [11, 7]).getD ((11 : Int).fdiv 10 - 1).toNat []).getD
        ((11 : Int).emod 10 - 1).toNat dummyVar).dom = [7]
    ∧ (((cageStep (initVarsK 2) [11, 7]).getD ((11 : Int).fdiv 10 - 1).toNat []).getD
        ((11 : Int).emod 10 - 1).toNat dummyVar).curDom = [7] :=
  singleton_cage_ok.1 (initVarsK 2) 11 7 (by decide) (by decide)

/-- Membership in the domain cross product is pointwise domain membership. -/
theorem mem_listProd (doms : List (List Int)) (t : List Int) :
    t ∈ listProd doms ↔ List.Forall₂ (fun x d => x ∈ d) t doms := by
  induction doms generalizing t with
  | nil =>
    simp [listProd, List.forall₂_nil_right_iff]
  | cons d ds ih =>
    simp only [listProd, List.mem_flatMap, List.mem_map]
    constructor
    · rintro ⟨x, hx, t1, ht1, rfl⟩
      exact List.Forall₂.cons hx ((ih t1).mp ht1)
    · intro h
      rcases List.forall₂_cons_right_iff.mp h with ⟨x, t1, hx, ht1, rfl⟩
      exact ⟨x, hx, t1, (ih t1).mpr ht1, rfl⟩

/-- The cage tuple test at operation code 1 is the subtraction permutation
search. -/
theorem cageTupleTest_sub (target : Int) (t : List Int) :
    cageTupleTest 1 target t
      = t.permutations.flatMap (fun p => if foldSub p = target then [t] else []) := by
  norm_num [cageTupleTest]

/-- The cage tuple test at operation code 2 is the division permutation
search. -/
theorem cageTupleTest_div (target : Int) (t : List Int) :
    cageTupleTest 2 target t
      = t.permutations.flatMap (fun p => if foldDiv p = target then [t] else []) := by
  norm_num [cageTupleTest]

/-- Membership in the subtraction cage tuple list. -/
theorem mem_cageSatisfying_sub (target : Int) (doms : List (List Int)) (t : List Int) :
    t ∈ cageSatisfying 1 target doms
      ↔ t ∈ listProd doms ∧ ∃ p, List.Perm p t ∧ foldSub p = target := by
  simp only [cageSatisfying, List.mem_flatMap, cageTupleTest_sub, mem_if_singleton,
    List.mem_permutations]
  constructor
  · rintro ⟨u, hu, p, hp, hfold, rfl⟩
    exact ⟨hu, p, hp, hfold⟩
  · rintro ⟨hu, p, hp, hfold⟩
    exact ⟨t, hu, p, hp, hfold, rfl⟩

/-- Membership in the division cage tuple list. -/
theorem mem_cageSatisfying_div (target : Int) (doms : List (List Int)) (t : List Int) :
    t ∈ cageSatisfying 2 target doms
      ↔ t ∈ listProd doms ∧ ∃ p, List.Perm p t ∧ foldDiv p = target := by
  simp only [cageSatisfying, List.mem_flatMap, cageTupleTest_div, mem_if_singleton,
    List.mem_permutations]
  constructor
  · rintro ⟨u, hu, p, hp, hfold, rfl⟩
    exact ⟨hu, p, hp, hfold⟩
  · rintro ⟨hu, p, hp, hfold⟩
    exact ⟨t, hu, p, hp, hfold, rfl⟩

/-- C2: for a multi-cell cage with operation code 1 (subtract) or 2 (floor
integer divide), a tuple from the cross product of the participating domains
is retained exactly when some permutation of its values, folded left to right
with the operation, hits the target; and in the compiled model of a 3 by 3
board with the two-cell subtraction cage over cells 11 and 12, target 2 and
domains 1..3, both tuples 1 3 and 3 1 appear in the stored tuple set. The
nonzero hypothesis on the division side keeps the embedding inside the region
where Lean floor division agrees with the Python evaluation, which would raise
on a zero divisor. -/
theorem cage_sub_div_perm_ok :
    (∀ target : Int, ∀ doms : List (List Int), ∀ t : List Int, doms ≠ [] →
      (t ∈ cageSatisfying 1 target doms ↔
        List.Forall₂ (fun x d => x ∈ d) t doms ∧ ∃ p, List.Perm p t ∧ foldSub p = target))
    ∧ (∀ target : Int, ∀ doms : List (List Int), ∀ t : List Int, doms ≠ [] →
        (∀ d ∈ doms, ∀ x ∈ d, x ≠ 0) →
      (t ∈ cageSatisfying 2 target doms ↔
        List.Forall₂ (fun x d => x ∈ d) t doms ∧ ∃ p, List.Perm p t ∧ foldDiv p = target))
    ∧ [1, 3] ∈ ((kenken_csp_model [[3], [11, 12, 2, 1]]).1.cons.headD ⟨"", [], []⟩).tuples
    ∧ [3, 1] ∈ ((kenken_csp_model [[3], [11, 12, 2, 1]]).1.cons.headD ⟨"", [], []⟩).tuples := by
  have htup : ((kenken_csp_model [[3], [11, 12, 2, 1]]).1.cons.headD ⟨"", [], []⟩).tuples
      = cageSatisfying 1 2 [[1, 2, 3], [1, 2, 3]] := rfl
  refine ⟨?_, ?_, ?_, ?_⟩
  · intro target doms t _
    rw [mem_cageSatisfying_sub, mem_listProd]
  · intro target doms t _ _
    rw [mem_cageSatisfying_div, mem_listProd]
  · rw [htup]
    exact (mem_cageSatisfying_sub 2 [[1, 2, 3], [1, 2, 3]] [1, 3]).mpr
      ⟨by decide, [3, 1], by decide, by decide⟩
  · rw [htup]
    exact (mem_cageSatisfying_sub 2 [[1, 2, 3], [1, 2, 3]] [3, 1]).mpr
      ⟨by decide, [3, 1], by decide, by decide⟩

/-- Witness for C2: the subtraction example retains the tuple 1 3 through the
permutation 3 1, and the division example retains 2 4 through the permutation
4 2. -/
theorem cage_sub_div_perm_ok_witness :
    [1, 3] ∈ cageSatisfying 1 2 [[1, 2, 3], [1, 2, 3]]
    ∧ [2, 4] ∈ cageSatisfying 2 2 [[1, 2, 3, 4], [1, 2, 3, 4]] :=
  ⟨(cage_sub_div_perm_ok.1 2 [[1, 2, 3], [1, 2, 3]] [1, 3] (by decide)).mpr
     ⟨List.Forall₂.cons (by decide) (List.Forall₂.cons (by decide) List.Forall₂.nil),
      [3, 1], by decide, by decide⟩,
   (cage_sub_div_perm_ok.2.1 2 [[1, 2, 3, 4], [1, 2, 3, 4]] [2, 4] (by decide) (by decide)).mpr
     ⟨List.Forall₂.cons (by decide) (List.Forall₂.cons (by decide) List.Forall₂.nil),
      [4, 2], by decide, by decide⟩⟩

/-- The variables of one grid row are pairwise distinct objects. -/
theorem rowVars_nodup (n i : Nat) : (rowVars n i).Nodup := by
  refine List.Nodup.map ?_ (List.nodup_range n)
  intro a b h
  have hv := congrArg Variable.vid h
  simpa [gridVar] using hv

/-- The variables of one grid column are pairwise distinct objects. -/
theorem colVars_nodup (n i : Nat) : (colVars n i).Nodup := by
  refine List.Nodup.map ?_ (List.nodup_range n)
  intro a b h
  have hv := congrArg Variable.vid h
  simpa [gridVar] using hv

/-- Shape of every constraint emitted by nary_ad_cons: a full row or column as
scope, and the whole cross product of the scope with itself as added
elements (the duplicate guard always passes on the distinct grid
variables). -/
theorem nary_cons_spec (n : Nat) (con : NAryConstraint) (h : con ∈ nary_ad_cons n) :
    (∃ i, i < n ∧ (con.scope = rowVars n i ∨ con.scope = colVars n i))
    ∧ con.scope.length = n
    ∧ con.addedBatches = allScopePairs con.scope := by
  simp only [nary_ad_cons, List.mem_flatMap, List.mem_range, List.mem_cons,
    List.mem_singleton] at h
  obtain ⟨i, hin, hcon⟩ := h
  have hrow : (rowVars n i).dedup.length = (rowVars n i).length := by
    rw [List.dedup_eq_self.mpr (rowVars_nodup n i)]
  have hcol : (colVars n i).dedup.length = (colVars n i).length := by
    rw [List.dedup_eq_self.mpr (colVars_nodup n i)]
  rcases hcon with rfl | rfl | hcon
  · refine ⟨⟨i, hin, Or.inl rfl⟩, ?_, ?_⟩
    · simp [mkNAryCon, rowVars]
    · simp [mkNAryCon, hrow]
  · refine ⟨⟨i, hin, Or.inr rfl⟩, ?_, ?_⟩
    · simp [mkNAryCon, colVars]
    · simp [mkNAryCon, hcol]
  · cases hcon

/-- C7 counterexample: in the first row constraint of the dimension 2 n-ary
grid, the pair whose two components are both the top-left variable is among
the added elements, so the retained 2-tuples are not restricted to pairs of
distinct elements. -/
theorem nary_diag_pair_cex :
    NAryElem.varPair (gridVar 2 0 0) (gridVar 2 0 0) ∈ conN.addedBatches
    ∧ conN ∈ nary_ad_cons 2 :=
  ⟨by decide, by decide⟩

/-- C7 (amended): each row and column constraint built by nary_ad_grid has as
scope the full row or column of n variables, and its added elements are
computed by enumerating 2-tuples from the cross product of the scope with
itself and retaining every one of them, equal-element pairs included, rather
than enumerating full n-ary tuples. -/
theorem nary_pairs_all_ok (n : Nat) (con : NAryConstraint)
    (hcon : con ∈ (nary_ad_grid [[(n : Int)]]).1.cons) :
    con.scope.length = n
    ∧ (∃ i, i < n ∧ (con.scope = rowVars n i ∨ con.scope = colVars n i))
    ∧ con.addedBatches = allScopePairs con.scope
    ∧ (∀ a ∈ con.scope, NAryElem.varPair a a ∈ con.addedBatches) := by
  have h : con ∈ nary_ad_cons n := by
    simpa [nary_ad_grid] using hcon
  obtain ⟨hi, hlen, hbat⟩ := nary_cons_spec n con h
  refine ⟨hlen, hi, hbat, ?_⟩
  intro a ha
  rw [hbat]
  simp only [allScopePairs, List.mem_flatMap, List.mem_map]
  exact ⟨a, ha, a, ha, rfl⟩

/-- Witness for the amended C7: the first constraint of the dimension 2 n-ary
grid. -/
theorem nary_pairs_all_ok_witness :
    conN.scope.length = 2
    ∧ (∃ i, i < 2 ∧ (conN.scope = rowVars 2 i ∨ conN.scope = colVars 2 i))
    ∧ conN.addedBatches = allScopePairs conN.scope
    ∧ (∀ a ∈ conN.scope, NAryElem.varPair a a ∈ conN.addedBatches) :=
  nary_pairs_all_ok 2 conN (by decide)

/-- C10: every element nary_ad_grid passes to the tuple store is a 2-tuple of
Variable objects drawn from the constraint scope; consequently none of the
added elements is a tuple of integer domain values. -/
theorem nary_var_pairs_ok (n : Nat) (con : NAryConstraint)
    (hcon : con ∈ (nary_ad_grid [[(n : Int)]]).1.cons) (e : NAryElem)
    (he : e ∈ con.addedBatches) :
    (∃ a, a ∈ con.scope ∧ ∃ b, b ∈ con.scope ∧ e = NAryElem.varPair a b)
    ∧ (∀ ts : List Int, e ≠ NAryElem.intTuple ts) := by
  have h : con ∈ nary_ad_cons n := by
    simpa [nary_ad_grid] using hcon
  obtain ⟨_, _, hbat⟩ := nary_cons_spec n con h
  rw [hbat] at he
  simp only [allScopePairs, List.mem_flatMap, List.mem_map] at he
  obtain ⟨a, ha, b, hb, rfl⟩ := he
  exact ⟨⟨a, ha, b, hb, rfl⟩, fun ts h2 => NAryElem.noConfusion h2⟩

/-- Witness for C10: the pair of the two row 0 variables of the dimension 2
grid. -/
theorem nary_var_pairs_ok_witness :
    (∃ a, a ∈ conN.scope ∧ ∃ b, b ∈ conN.scope
      ∧ NAryElem.varPair (gridVar 2 0 0) (gridVar 2 0 1) = NAryElem.varPair a b)
    ∧ (∀ ts : List Int,
        NAryElem.varPair (gridVar 2 0 0) (gridVar 2 0 1) ≠ NAryElem.intTuple ts) :=
  nary_var_pairs_ok 2 conN (by decide) (NAryElem.varPair (gridVar 2 0 0) (gridVar 2 0 1))
    (by decide)
